import Mathlib

/-!
Shallow embedding of the Socket.IO bridge (`socketio_bridge.py`).

The bridge keeps three module-level pools:
* `SESSION_POOL : Dict[str, dict]` mapping a connection identifier (sid) to
  the authenticated user record returned by the backend;
* `USER_POOL : Dict[str, list]` mapping a user id to the list of its live sids;
* `USAGE_POOL : Dict[str, dict]` mapping a model id to a dict from sid to a
  last-activity timestamp.

Python dicts are embedded as insertion-ordered association lists over `String`
keys (`lookupA` / `setA` / `eraseA` mirror `d.get`, `d[k] = v` and `del d[k]`).
The event handlers `connect`, `user-join`, `usage`, `channel-events`,
`disconnect` and the HTTP handlers `emit_event` (`POST /emit`) and
`health_check` (`GET /health`) are embedded as pure state transformers; the
outcome of the delegated backend authentication call is an explicit
`Option User` input (`none` covers a missing token, a non-200 response and a
raised exception, all of which leave the pools untouched).
-/

namespace SocketBridge

/-- Association-list lookup, mirroring Python `d.get(k)` on a dict embedded as
an insertion-ordered list of key/value pairs. -/
def lookupA {β : Type} (k : String) : List (String × β) → Option β
  | [] => none
  | (k', v) :: m => if k' = k then some v else lookupA k m

/-- Association-list upsert, mirroring Python `d[k] = v`: an existing key is
updated in place, a fresh key is appended at the end (insertion order). -/
def setA {β : Type} (k : String) (v : β) : List (String × β) → List (String × β)
  | [] => [(k, v)]
  | (k', v') :: m => if k' = k then (k, v) :: m else (k', v') :: setA k v m

/-- Association-list removal, mirroring Python `del d[k]` / `d.pop(k, None)`. -/
def eraseA {β : Type} (k : String) : List (String × β) → List (String × β)
  | [] => []
  | (k', v') :: m => if k' = k then eraseA k m else (k', v') :: eraseA k m

/-- Keys of an embedded dict, in iteration order. -/
def keysA {β : Type} (m : List (String × β)) : List String :=
  m.map Prod.fst

abbrev Sid := String
abbrev UserId := String
abbrev ModelId := String

/-- The user record returned by `POST /api/socketio/auth` on status 200.  The
bridge reads `user.get('id')`, `user.get('name')` and `user.get('email')`; a
missing key is `none`.  The all-`none` record embeds the empty dict. -/
structure User where
  id : Option String
  name : Option String
  email : Option String
deriving DecidableEq, Repr

/-- A JSON value as far as the bridge inspects it: the `data.get('data', {})`
defaults only ever produce the empty object, everything else is opaque. -/
inductive JsonV
  | emptyObj
  | raw (s : String)
deriving DecidableEq, Repr

/-- The three module-level pools of the bridge. -/
structure BridgeState where
  sessionPool : List (Sid × User)
  userPool : List (UserId × List Sid)
  usagePool : List (ModelId × List (Sid × Nat))
deriving DecidableEq, Repr

/-- All pools start empty. -/
def initState : BridgeState := ⟨[], [], []⟩

/-- `connect`'s USER_POOL update: `USER_POOL[user_id].append(sid)` when the key
exists (no duplicate check), `USER_POOL[user_id] = [sid]` otherwise. -/
def poolAdd (uid : UserId) (sid : Sid) (up : List (UserId × List Sid)) :
    List (UserId × List Sid) :=
  match lookupA uid up with
  | some l => setA uid (l ++ [sid]) up
  | none => setA uid [sid] up

/-- `user_join`'s USER_POOL update: like `poolAdd` but guarded by
`if sid not in USER_POOL[user_id]`. -/
def poolAddDedup (uid : UserId) (sid : Sid) (up : List (UserId × List Sid)) :
    List (UserId × List Sid) :=
  match lookupA uid up with
  | some l => if sid ∈ l then up else setA uid (l ++ [sid]) up
  | none => setA uid [sid] up

/-- `disconnect`'s USER_POOL update for a bound user id:
`USER_POOL[user_id] = [s for s in USER_POOL[user_id] if s != sid]` followed by
`del` when the filtered list is empty; a missing key is left alone
(`user_id in USER_POOL` guard). -/
def poolRemove (uid : UserId) (sid : Sid) (up : List (UserId × List Sid)) :
    List (UserId × List Sid) :=
  match lookupA uid up with
  | none => up
  | some l =>
    if l.filter (fun s => decide (s ≠ sid)) = []
    then eraseA uid up
    else setA uid (l.filter (fun s => decide (s ≠ sid))) up

/-- The `connect` handler.  `authResult` is the outcome of the delegated
authentication: `some user` iff a token was supplied and the backend answered
200 with `user`.  On success the user is stored in SESSION_POOL and, when
`user.get('id')` is truthy, the sid is appended to that id's USER_POOL list. -/
def connect (sid : Sid) (authResult : Option User) (st : BridgeState) : BridgeState :=
  match authResult with
  | none => st
  | some user =>
    let st1 := { st with sessionPool := setA sid user st.sessionPool }
    match user.id with
    | some uid =>
      if uid = "" then st1
      else { st1 with userPool := poolAdd uid sid st1.userPool }
    | none => st1

/-- The `user-join` handler.  Same authentication path as `connect`, but the
USER_POOL insertion is deduplicated, and on success with a truthy user id the
handler returns the acknowledgement `{"id": user_id, "name": user.get('name')}`;
in every other case it returns `None`. -/
def userJoin (sid : Sid) (authResult : Option User) (st : BridgeState) :
    BridgeState × Option (UserId × Option String) :=
  match authResult with
  | none => (st, none)
  | some user =>
    let st1 := { st with sessionPool := setA sid user st.sessionPool }
    match user.id with
    | some uid =>
      if uid = "" then (st1, none)
      else ({ st1 with userPool := poolAddDedup uid sid st1.userPool }, some (uid, user.name))
    | none => (st1, none)

/-- The `usage` handler: when the sid is in SESSION_POOL and the payload's
`model` is truthy, upsert `USAGE_POOL[model][sid] = {"updated_at": now}`.
The Python handler never returns a value, so the acknowledgement component is
always `none`. -/
def usage (sid : Sid) (model : Option ModelId) (now : Nat) (st : BridgeState) :
    BridgeState × Option (UserId × Option String) :=
  if (lookupA sid st.sessionPool).isSome then
    match model with
    | some m =>
      if m = "" then (st, none)
      else
        let entries := (lookupA m st.usagePool).getD []
        ({ st with usagePool := setA m (setA sid now entries) st.usagePool }, none)
    | none => (st, none)
  else (st, none)

/-- The incoming payload of a `channel-events` event, as far as the handler
reads it: `channel_id`, `message_id` and `data` keys. -/
structure ChannelEventIn where
  channel_id : Option String
  message_id : Option String
  data : Option JsonV
deriving DecidableEq, Repr

/-- The payload re-emitted by the `channel-events` handler.  `user` is
`SESSION_POOL.get(sid, {})`; `none` embeds the `{}` default taken for an
unauthenticated sender. -/
structure ChannelEventOut where
  channel_id : String
  message_id : Option String
  data : JsonV
  user : Option User
deriving DecidableEq, Repr

/-- The `channel-events` handler.  `members` is the membership of the room
`channel:{channel_id}` as maintained by the transport layer (an injected
capability).  When `channel_id` is truthy the handler re-emits the event to the
room with `skip_sid=sid`, i.e. to every member except the sender; otherwise it
does nothing.  The pools are never modified. -/
def channelEvents (sid : Sid) (ev : ChannelEventIn) (members : List Sid)
    (st : BridgeState) : Option (ChannelEventOut × List Sid) :=
  match ev.channel_id with
  | some cid =>
    if cid = "" then none
    else
      some ({ channel_id := cid, message_id := ev.message_id,
              data := ev.data.getD JsonV.emptyObj,
              user := lookupA sid st.sessionPool },
            members.filter (fun s => decide (s ≠ sid)))
  | none => none

/-- Per-model cleanup performed by `disconnect`: for every model, delete the
sid's entry if present, then delete the model itself if its dict is empty. -/
def usageCleanup (sid : Sid) :
    List (ModelId × List (Sid × Nat)) → List (ModelId × List (Sid × Nat))
  | [] => []
  | (m, entries) :: rest =>
    if eraseA sid entries = [] then usageCleanup sid rest
    else (m, eraseA sid entries) :: usageCleanup sid rest

/-- The `disconnect` handler: `SESSION_POOL.pop(sid, None)`; when a user was
bound and its id is truthy, remove the sid from that id's USER_POOL list
(dropping the key if the list empties); unconditionally run the USAGE_POOL
cleanup. -/
def disconnect (sid : Sid) (st : BridgeState) : BridgeState :=
  let userOpt := lookupA sid st.sessionPool
  let sp := eraseA sid st.sessionPool
  let up :=
    match userOpt with
    | some user =>
      match user.id with
      | some uid => if uid = "" then st.userPool else poolRemove uid sid st.userPool
      | none => st.userPool
    | none => st.userPool
  ⟨sp, up, usageCleanup sid st.usagePool⟩

/-- The body of a `POST /emit` request, as far as `emit_event` reads it. -/
structure EmitRequest where
  user_id : Option String
  event : Option String
  data : Option JsonV
deriving DecidableEq, Repr

/-- The HTTP response of `emit_event`: 200 with a sent count, 404 with a
message, or 500 with a message. -/
inductive EmitResponse
  | ok (sent : Nat)
  | notFound (msg : String)
  | internalError (msg : String)
deriving DecidableEq, Repr

/-- The `emit_event` handler (`POST /emit`).  The body is the result of
`await request.json()`: `Except.error` embeds a raised exception, which is
answered with 500.  On a truthy `user_id` present in USER_POOL the event (tag
defaulted to `chat-events`, data defaulted to the empty object) is emitted to
every sid in the user's list and the response is 200 with the list's length;
otherwise the response is the 404 `User not found`.  The returned state is the
unchanged input state: the handler only reads the pools. -/
def emitEvent (body : Except String EmitRequest) (st : BridgeState) :
    EmitResponse × List (String × JsonV × Sid) × BridgeState :=
  match body with
  | .error e => (.internalError e, [], st)
  | .ok req =>
    match req.user_id with
    | none => (.notFound "User not found", [], st)
    | some uid =>
      if uid = "" then (.notFound "User not found", [], st)
      else
        match lookupA uid st.userPool with
        | none => (.notFound "User not found", [], st)
        | some l =>
          (.ok l.length,
           l.map (fun s => (req.event.getD "chat-events", req.data.getD JsonV.emptyObj, s)),
           st)

/-- The `GET /health` response body. -/
structure HealthResponse where
  status : String
  connected_users : Nat
  active_sessions : Nat
deriving DecidableEq, Repr

/-- The `health_check` handler: 200 with the sizes of USER_POOL and
SESSION_POOL. -/
def healthCheck (st : BridgeState) : Nat × HealthResponse :=
  (200, ⟨"ok", st.userPool.length, st.sessionPool.length⟩)

/-- An environment step of the bridge: the four transport-driven handlers with
the authentication outcome supplied by the environment. -/
inductive Op
  | connect (sid : Sid) (authResult : Option User)
  | userJoin (sid : Sid) (authResult : Option User)
  | usage (sid : Sid) (model : Option ModelId) (now : Nat)
  | disconnect (sid : Sid)
deriving DecidableEq, Repr

/-- State transition of one handler invocation. -/
def step (st : BridgeState) : Op → BridgeState
  | Op.connect sid a => connect sid a st
  | Op.userJoin sid a => (userJoin sid a st).1
  | Op.usage sid m t => (usage sid m t st).1
  | Op.disconnect sid => disconnect sid st

/-- The state reached from empty pools by a chronological list of handler
invocations. -/
def run (ops : List Op) : BridgeState :=
  ops.foldl step initState

/-- `c` is in identity `u`'s connection set of the Identity Index. -/
def OwnedBy (st : BridgeState) (c : Sid) (u : UserId) : Prop :=
  c ∈ (lookupA u st.userPool).getD []

instance (st : BridgeState) (c : Sid) (u : UserId) : Decidable (OwnedBy st c u) := by
  unfold OwnedBy
  infer_instance

/-- The last-activity timestamp recorded for `(model, sid)`. -/
def usageAt (st : BridgeState) (m : ModelId) (sid : Sid) : Option Nat :=
  lookupA sid ((lookupA m st.usagePool).getD [])

/-- The (sid, user-id) payload of a successful authentication step, `none` for
every other step. -/
def authIdOf : Op → Option (Sid × Option String)
  | Op.connect sid (some user) => some (sid, user.id)
  | Op.userJoin sid (some user) => some (sid, user.id)
  | _ => none

/-- Two authentication outcomes agree when they concern different connections
or bind the same user id. -/
def agreeAuthB : Option (Sid × Option String) → Option (Sid × Option String) → Bool
  | some (c, i), some (c', i') => c != c' || i == i'
  | _, _ => true

/-- Every two successful authentications of the same connection in the trace
bind the same user id (a connection is never re-authenticated as a different
identity, nor re-authenticated with a missing id after a truthy one). -/
def SingleId (ops : List Op) : Prop :=
  ∀ a ∈ ops, ∀ b ∈ ops, agreeAuthB (authIdOf a) (authIdOf b) = true

instance (ops : List Op) : Decidable (SingleId ops) := by
  unfold SingleId
  exact List.decidableBAll _ ops

/-- In trace `ops`, some authentication of connection `c` succeeded binding the
truthy user id `u`. -/
def AuthAs (ops : List Op) (c : Sid) (u : UserId) : Prop :=
  ∃ op ∈ ops, authIdOf op = some (c, some u) ∧ u ≠ ""

theorem lookupA_setA_self {β : Type} (k : String) (v : β) (m : List (String × β)) :
    lookupA k (setA k v m) = some v := by
  induction m with
  | nil => simp [setA, lookupA]
  | cons p m ih =>
    obtain ⟨k', v'⟩ := p
    by_cases h : k' = k <;> simp [setA, lookupA, h, ih]

theorem lookupA_setA_ne {β : Type} {j k : String} (hjk : j ≠ k) (v : β)
    (m : List (String × β)) : lookupA j (setA k v m) = lookupA j m := by
  have hkj : k ≠ j := Ne.symm hjk
  induction m with
  | nil => simp [setA, lookupA, hkj]
  | cons p m ih =>
    obtain ⟨k', v'⟩ := p
    by_cases h : k' = k
    · subst h
      simp [setA, lookupA, hkj]
    · simp [setA, lookupA, h, ih]

theorem lookupA_eraseA_self {β : Type} (k : String) (m : List (String × β)) :
    lookupA k (eraseA k m) = none := by
  induction m with
  | nil => simp [eraseA, lookupA]
  | cons p m ih =>
    obtain ⟨k', v'⟩ := p
    by_cases h : k' = k <;> simp [eraseA, lookupA, h, ih]

theorem lookupA_eraseA_ne {β : Type} {j k : String} (hjk : j ≠ k)
    (m : List (String × β)) : lookupA j (eraseA k m) = lookupA j m := by
  have hkj : k ≠ j := Ne.symm hjk
  induction m with
  | nil => simp [eraseA]
  | cons p m ih =>
    obtain ⟨k', v'⟩ := p
    by_cases h : k' = k
    · subst h
      simp [eraseA, lookupA, hkj, ih]
    · simp [eraseA, lookupA, h, ih]

theorem lookupA_none_iff {β : Type} (k : String) (m : List (String × β)) :
    lookupA k m = none ↔ ∀ p ∈ m, p.1 ≠ k := by
  induction m with
  | nil => simp [lookupA]
  | cons p m ih =>
    obtain ⟨k', v'⟩ := p
    by_cases h : k' = k <;> simp [lookupA, h, ih]

theorem eraseA_of_lookupA_none {β : Type} {k : String} {m : List (String × β)}
    (h : lookupA k m = none) : eraseA k m = m := by
  induction m with
  | nil => simp [eraseA]
  | cons p m ih =>
    obtain ⟨k', v'⟩ := p
    by_cases hk : k' = k
    · simp [lookupA, hk] at h
    · simp [lookupA, hk] at h
      simp [eraseA, hk, ih h]

theorem setA_setA {β : Type} (k : String) (v : β) (m : List (String × β)) :
    setA k v (setA k v m) = setA k v m := by
  induction m with
  | nil => simp [setA]
  | cons p m ih =>
    obtain ⟨k', v'⟩ := p
    by_cases h : k' = k <;> simp [setA, h, ih]

theorem mem_setA {β : Type} {p : String × β} {k : String} {v : β}
    {m : List (String × β)} (h : p ∈ setA k v m) : p ∈ m ∨ p = (k, v) := by
  induction m with
  | nil => simp [setA] at h; simp [h]
  | cons q m ih =>
    obtain ⟨k', v'⟩ := q
    by_cases hk : k' = k
    · simp [setA, hk] at h
      rcases h with h | h
      · right; simp [h]
      · left; simp [h]
    · simp [setA, hk] at h
      rcases h with h | h
      · left; simp [h]
      · rcases ih h with h2 | h2
        · left; simp [h2]
        · right; exact h2

theorem mem_eraseA {β : Type} {p : String × β} {k : String}
    {m : List (String × β)} (h : p ∈ eraseA k m) : p ∈ m ∧ p.1 ≠ k := by
  induction m with
  | nil => simp [eraseA] at h
  | cons q m ih =>
    obtain ⟨k', v'⟩ := q
    by_cases hk : k' = k
    · simp [eraseA, hk] at h
      rcases ih h with ⟨h1, h2⟩
      exact ⟨by simp [h1], h2⟩
    · simp [eraseA, hk] at h
      rcases h with h | h
      · subst h
        exact ⟨by simp, hk⟩
      · rcases ih h with ⟨h1, h2⟩
        exact ⟨by simp [h1], h2⟩

theorem setA_ne_nil {β : Type} (k : String) (v : β) (m : List (String × β)) :
    setA k v m ≠ [] := by
  cases m with
  | nil => simp [setA]
  | cons p m =>
    obtain ⟨k', v'⟩ := p
    by_cases h : k' = k <;> simp [setA, h]

theorem lookupA_mem {β : Type} {k : String} {v : β} {m : List (String × β)}
    (h : lookupA k m = some v) : (k, v) ∈ m := by
  induction m with
  | nil => simp [lookupA] at h
  | cons p m ih =>
    obtain ⟨k', v'⟩ := p
    by_cases hk : k' = k
    · subst hk
      simp [lookupA] at h
      simp [h]
    · simp [lookupA, hk] at h
      simp [ih h]

theorem lookupA_isSome_setA {β : Type} {j : String} (k : String) (v : β)
    {m : List (String × β)} (h : (lookupA j m).isSome = true) :
    (lookupA j (setA k v m)).isSome = true := by
  by_cases hjk : j = k
  · subst hjk
    simp [lookupA_setA_self]
  · rw [lookupA_setA_ne hjk]
    exact h

theorem poolAdd_nonempty {uid sid : String} {up : List (UserId × List Sid)}
    (h : ∀ p ∈ up, p.2 ≠ []) : ∀ p ∈ poolAdd uid sid up, p.2 ≠ [] := by
  intro p hp
  unfold poolAdd at hp
  split at hp
  · rcases mem_setA hp with h2 | h2
    · exact h p h2
    · rw [h2]; simp
  · rcases mem_setA hp with h2 | h2
    · exact h p h2
    · rw [h2]; simp

theorem poolAddDedup_nonempty {uid sid : String} {up : List (UserId × List Sid)}
    (h : ∀ p ∈ up, p.2 ≠ []) : ∀ p ∈ poolAddDedup uid sid up, p.2 ≠ [] := by
  intro p hp
  unfold poolAddDedup at hp
  split at hp
  · split at hp
    · exact h p hp
    · rcases mem_setA hp with h2 | h2
      · exact h p h2
      · rw [h2]; simp
  · rcases mem_setA hp with h2 | h2
    · exact h p h2
    · rw [h2]; simp

theorem poolRemove_nonempty {uid sid : String} {up : List (UserId × List Sid)}
    (h : ∀ p ∈ up, p.2 ≠ []) : ∀ p ∈ poolRemove uid sid up, p.2 ≠ [] := by
  intro p hp
  unfold poolRemove at hp
  split at hp
  · exact h p hp
  · rename_i l hl
    split at hp
    · exact h p (mem_eraseA hp).1
    · rename_i hf
      rcases mem_setA hp with h2 | h2
      · exact h p h2
      · rw [h2]; exact hf

theorem owns_poolAdd_elim {up : List (UserId × List Sid)} {uid sid c u : String}
    (h : c ∈ (lookupA u (poolAdd uid sid up)).getD []) :
    c ∈ (lookupA u up).getD [] ∨ (u = uid ∧ c = sid) := by
  unfold poolAdd at h
  split at h
  · rename_i l hl
    by_cases huid : u = uid
    · subst huid
      rw [lookupA_setA_self] at h
      simp at h
      rcases h with h | h
      · left; simp [hl, h]
      · right; exact ⟨rfl, h⟩
    · left; rwa [lookupA_setA_ne huid] at h
  · rename_i hl
    by_cases huid : u = uid
    · subst huid
      rw [lookupA_setA_self] at h
      simp at h
      right; exact ⟨rfl, h⟩
    · left; rwa [lookupA_setA_ne huid] at h

theorem owns_poolAddDedup_elim {up : List (UserId × List Sid)} {uid sid c u : String}
    (h : c ∈ (lookupA u (poolAddDedup uid sid up)).getD []) :
    c ∈ (lookupA u up).getD [] ∨ (u = uid ∧ c = sid) := by
  unfold poolAddDedup at h
  split at h
  · rename_i l hl
    split at h
    · left; exact h
    · by_cases huid : u = uid
      · subst huid
        rw [lookupA_setA_self] at h
        simp at h
        rcases h with h | h
        · left; simp [hl, h]
        · right; exact ⟨rfl, h⟩
      · left; rwa [lookupA_setA_ne huid] at h
  · rename_i hl
    by_cases huid : u = uid
    · subst huid
      rw [lookupA_setA_self] at h
      simp at h
      right; exact ⟨rfl, h⟩
    · left; rwa [lookupA_setA_ne huid] at h

theorem owns_poolRemove_elim {up : List (UserId × List Sid)} {uid sid c u : String}
    (h : c ∈ (lookupA u (poolRemove uid sid up)).getD []) :
    c ∈ (lookupA u up).getD [] ∧ (u = uid → c ≠ sid) := by
  unfold poolRemove at h
  split at h
  · rename_i hl
    refine ⟨h, fun hu => ?_⟩
    subst hu
    rw [hl] at h
    simp at h
  · rename_i l hl
    split at h
    · by_cases hu : u = uid
      · subst hu
        rw [lookupA_eraseA_self] at h
        simp at h
      · rw [lookupA_eraseA_ne hu] at h
        exact ⟨h, fun hx => absurd hx hu⟩
    · by_cases hu : u = uid
      · subst hu
        rw [lookupA_setA_self] at h
        simp at h
        refine ⟨by simp [hl, h.1], fun _ => h.2⟩
      · rw [lookupA_setA_ne hu] at h
        exact ⟨h, fun hx => absurd hx hu⟩

theorem poolAdd_self_mem (uid sid : String) (up : List (UserId × List Sid)) :
    sid ∈ (lookupA uid (poolAdd uid sid up)).getD [] := by
  unfold poolAdd
  split
  · rw [lookupA_setA_self]; simp
  · rw [lookupA_setA_self]; simp

theorem poolAddDedup_self_mem (uid sid : String) (up : List (UserId × List Sid)) :
    sid ∈ (lookupA uid (poolAddDedup uid sid up)).getD [] := by
  unfold poolAddDedup
  split
  · rename_i l hl
    split
    · rename_i hmem
      simp [hl, hmem]
    · rw [lookupA_setA_self]; simp
  · rw [lookupA_setA_self]; simp

theorem poolAddDedup_of_mem {uid sid : String} {up : List (UserId × List Sid)}
    (h : sid ∈ (lookupA uid up).getD []) : poolAddDedup uid sid up = up := by
  unfold poolAddDedup
  cases hl : lookupA uid up with
  | none => rw [hl] at h; simp at h
  | some l =>
    rw [hl] at h
    simp at h
    simp [h]

theorem lookupA_usageCleanup {sid : Sid} {pool : List (ModelId × List (Sid × Nat))}
    {m : ModelId} {e : List (Sid × Nat)}
    (h : lookupA m (usageCleanup sid pool) = some e) : lookupA sid e = none := by
  induction pool with
  | nil => simp [usageCleanup, lookupA] at h
  | cons q rest ih =>
    obtain ⟨m0, es⟩ := q
    unfold usageCleanup at h
    by_cases he : eraseA sid es = []
    · rw [if_pos he] at h
      exact ih h
    · rw [if_neg he] at h
      by_cases hm : m0 = m
      · rw [lookupA, if_pos hm] at h
        cases h
        exact lookupA_eraseA_self sid es
      · rw [lookupA, if_neg hm] at h
        exact ih h

theorem mem_usageCleanup {sid : Sid} {pool : List (ModelId × List (Sid × Nat))}
    {q : ModelId × List (Sid × Nat)} (h : q ∈ usageCleanup sid pool) :
    q.2 ≠ [] ∧ ∃ q0 ∈ pool, q.2 = eraseA sid q0.2 := by
  induction pool with
  | nil => simp [usageCleanup] at h
  | cons p rest ih =>
    obtain ⟨m0, es⟩ := p
    unfold usageCleanup at h
    by_cases he : eraseA sid es = []
    · rw [if_pos he] at h
      rcases ih h with ⟨h1, q0, hq0, h2⟩
      exact ⟨h1, q0, by simp [hq0], h2⟩
    · rw [if_neg he] at h
      rcases List.mem_cons.mp h with h | h
      · rw [h]
        exact ⟨he, (m0, es), by simp, rfl⟩
      · rcases ih h with ⟨h1, q0, hq0, h2⟩
        exact ⟨h1, q0, by simp [hq0], h2⟩

theorem usageCleanup_eq_self {sid : Sid} {pool : List (ModelId × List (Sid × Nat))}
    (h : ∀ q ∈ pool, q.2 ≠ [] ∧ lookupA sid q.2 = none) :
    usageCleanup sid pool = pool := by
  induction pool with
  | nil => rfl
  | cons p rest ih =>
    obtain ⟨m0, es⟩ := p
    have h0 := h (m0, es) (by simp)
    have he : eraseA sid es = es := eraseA_of_lookupA_none h0.2
    unfold usageCleanup
    rw [he, if_neg h0.1, ih (fun q hq => h q (by simp [hq]))]

theorem run_concat (ops : List Op) (op : Op) :
    run (ops ++ [op]) = step (run ops) op := by
  simp [run, List.foldl_append]

theorem authAs_mono {ops : List Op} (op : Op) {c : Sid} {u : UserId}
    (h : AuthAs ops c u) : AuthAs (ops ++ [op]) c u := by
  rcases h with ⟨o, ho, he⟩
  exact ⟨o, List.mem_append_left _ ho, he⟩

theorem disconnect_sessionPool (sid : Sid) (st : BridgeState) :
    (disconnect sid st).sessionPool = eraseA sid st.sessionPool := rfl

theorem disconnect_usagePool (sid : Sid) (st : BridgeState) :
    (disconnect sid st).usagePool = usageCleanup sid st.usagePool := rfl

theorem disconnect_userPool_cases (sid : Sid) (st : BridgeState) :
    ((disconnect sid st).userPool = st.userPool ∧
      ∀ user, lookupA sid st.sessionPool = some user →
        ∀ uid, user.id = some uid → uid = "") ∨
    ∃ uid user, uid ≠ "" ∧ lookupA sid st.sessionPool = some user ∧
      user.id = some uid ∧
      (disconnect sid st).userPool = poolRemove uid sid st.userPool := by
  unfold disconnect
  cases hu : lookupA sid st.sessionPool with
  | none =>
    left
    refine ⟨rfl, ?_⟩
    intro user h
    cases h
  | some user =>
    cases hid : user.id with
    | none =>
      left
      refine ⟨by simp [hid], ?_⟩
      intro user' h uid h2
      injection h with h
      subst h
      rw [hid] at h2
      cases h2
    | some uid =>
      by_cases hne : uid = ""
      · left
        refine ⟨by simp [hid, hne], ?_⟩
        intro user' h uid' h2
        injection h with h
        subst h
        rw [hid] at h2
        injection h2 with h2
        subst h2
        exact hne
      · right
        exact ⟨uid, user, hne, rfl, hid, by simp [hid, hne]⟩

theorem inv_step (ops : List Op) (op : Op) (st : BridgeState)
    (h1 : ∀ p ∈ st.userPool, p.2 ≠ [])
    (h2 : ∀ q ∈ st.usagePool, q.2 ≠ [])
    (h3 : ∀ c u, OwnedBy st c u → AuthAs ops c u)
    (h4 : ∀ q ∈ st.usagePool, ∀ e ∈ q.2, (lookupA e.1 st.sessionPool).isSome = true) :
    (∀ p ∈ (step st op).userPool, p.2 ≠ []) ∧
    (∀ q ∈ (step st op).usagePool, q.2 ≠ []) ∧
    (∀ c u, OwnedBy (step st op) c u → AuthAs (ops ++ [op]) c u) ∧
    (∀ q ∈ (step st op).usagePool, ∀ e ∈ q.2,
      (lookupA e.1 (step st op).sessionPool).isSome = true) := by
  cases op with
  | connect sid a =>
    cases a with
    | none =>
      simp only [step, connect]
      exact ⟨h1, h2, fun c u hc => authAs_mono _ (h3 c u hc), h4⟩
    | some user =>
      simp only [step, connect]
      cases huid : user.id with
      | none =>
        simp only []
        refine ⟨h1, h2, fun c u hc => authAs_mono _ (h3 c u hc), ?_⟩
        intro q hq e he
        exact lookupA_isSome_setA _ _ (h4 q hq e he)
      | some uid =>
        by_cases hne : uid = ""
        · simp only [hne, if_true, if_pos rfl]
          refine ⟨h1, h2, fun c u hc => authAs_mono _ (h3 c u hc), ?_⟩
          intro q hq e he
          exact lookupA_isSome_setA _ _ (h4 q hq e he)
        · simp only [if_neg hne]
          refine ⟨poolAdd_nonempty h1, h2, ?_, ?_⟩
          · intro c u hc
            rcases owns_poolAdd_elim hc with hc2 | ⟨hu, hcsid⟩
            · exact authAs_mono _ (h3 c u hc2)
            · subst hu; subst hcsid
              exact ⟨Op.connect c (some user), List.mem_append_right _ (by simp),
                by simp [authIdOf, huid], hne⟩
          · intro q hq e he
            exact lookupA_isSome_setA _ _ (h4 q hq e he)
  | userJoin sid a =>
    cases a with
    | none =>
      simp only [step, userJoin]
      exact ⟨h1, h2, fun c u hc => authAs_mono _ (h3 c u hc), h4⟩
    | some user =>
      simp only [step, userJoin]
      cases huid : user.id with
      | none =>
        simp only []
        refine ⟨h1, h2, fun c u hc => authAs_mono _ (h3 c u hc), ?_⟩
        intro q hq e he
        exact lookupA_isSome_setA _ _ (h4 q hq e he)
      | some uid =>
        by_cases hne : uid = ""
        · simp only [hne, if_pos rfl]
          refine ⟨h1, h2, fun c u hc => authAs_mono _ (h3 c u hc), ?_⟩
          intro q hq e he
          exact lookupA_isSome_setA _ _ (h4 q hq e he)
        · simp only [if_neg hne]
          refine ⟨poolAddDedup_nonempty h1, h2, ?_, ?_⟩
          · intro c u hc
            rcases owns_poolAddDedup_elim hc with hc2 | ⟨hu, hcsid⟩
            · exact authAs_mono _ (h3 c u hc2)
            · subst hu; subst hcsid
              exact ⟨Op.userJoin c (some user), List.mem_append_right _ (by simp),
                by simp [authIdOf, huid], hne⟩
          · intro q hq e he
            exact lookupA_isSome_setA _ _ (h4 q hq e he)
  | usage sid model t =>
    simp only [step, usage]
    by_cases hs : (lookupA sid st.sessionPool).isSome = true
    · simp only [hs, if_pos rfl]
      cases model with
      | none =>
        exact ⟨h1, h2, fun c u hc => authAs_mono _ (h3 c u hc), h4⟩
      | some mm =>
        by_cases hmm : mm = ""
        · simp only [hmm, if_pos rfl]
          exact ⟨h1, h2, fun c u hc => authAs_mono _ (h3 c u hc), h4⟩
        · simp only [if_neg hmm]
          refine ⟨h1, ?_, fun c u hc => authAs_mono _ (h3 c u hc), ?_⟩
          · intro q hq
            rcases mem_setA hq with hq2 | hq2
            · exact h2 q hq2
            · rw [hq2]; exact setA_ne_nil _ _ _
          · intro q hq e he
            rcases mem_setA hq with hq2 | hq2
            · exact h4 q hq2 e he
            · rw [hq2] at he
              rcases mem_setA he with he2 | he2
              · cases hl : lookupA mm st.usagePool with
                | none => rw [hl] at he2; simp at he2
                | some es =>
                  rw [hl] at he2
                  simp at he2
                  exact h4 (mm, es) (lookupA_mem hl) e he2
              · rw [he2]; exact hs
    · rw [if_neg hs]
      exact ⟨h1, h2, fun c u hc => authAs_mono _ (h3 c u hc), h4⟩
  | disconnect sid =>
    have husage : ∀ q ∈ usageCleanup sid st.usagePool, q.2 ≠ [] :=
      fun q hq => (mem_usageCleanup hq).1
    have husage4 : ∀ q ∈ usageCleanup sid st.usagePool, ∀ e ∈ q.2,
        (lookupA e.1 (eraseA sid st.sessionPool)).isSome = true := by
      intro q hq e he
      rcases mem_usageCleanup hq with ⟨_, q0, hq0, heq⟩
      rw [heq] at he
      rcases mem_eraseA he with ⟨he2, hne⟩
      rw [lookupA_eraseA_ne hne]
      exact h4 q0 hq0 e he2
    have hstep : step st (Op.disconnect sid) = disconnect sid st := rfl
    rw [hstep]
    rcases disconnect_userPool_cases sid st with ⟨hup, _⟩ | ⟨uid, user1, _, _, _, hup⟩
    · refine ⟨?_, ?_, ?_, ?_⟩
      · rw [hup]; exact h1
      · rw [disconnect_usagePool]; exact husage
      · intro c u hc
        unfold OwnedBy at hc
        rw [hup] at hc
        exact authAs_mono _ (h3 c u hc)
      · intro q hq e he
        rw [disconnect_usagePool] at hq
        rw [disconnect_sessionPool]
        exact husage4 q hq e he
    · refine ⟨?_, ?_, ?_, ?_⟩
      · rw [hup]; exact poolRemove_nonempty h1
      · rw [disconnect_usagePool]; exact husage
      · intro c u hc
        unfold OwnedBy at hc
        rw [hup] at hc
        exact authAs_mono _ (h3 c u (owns_poolRemove_elim hc).1)
      · intro q hq e he
        rw [disconnect_usagePool] at hq
        rw [disconnect_sessionPool]
        exact husage4 q hq e he

theorem connect_sessionPool (sid : Sid) (user : User) (st : BridgeState) :
    (connect sid (some user) st).sessionPool = setA sid user st.sessionPool := by
  unfold connect
  cases hid : user.id with
  | none => simp [hid]
  | some uid =>
    by_cases hne : uid = "" <;> simp [hid, hne]

theorem connect_userPool_cases (sid : Sid) (user : User) (st : BridgeState) :
    (connect sid (some user) st).userPool = st.userPool ∨
    ∃ uid, uid ≠ "" ∧ user.id = some uid ∧
      (connect sid (some user) st).userPool = poolAdd uid sid st.userPool := by
  unfold connect
  cases hid : user.id with
  | none => left; simp [hid]
  | some uid =>
    by_cases hne : uid = ""
    · left; simp [hid, hne]
    · right; exact ⟨uid, hne, rfl, by simp [hid, hne]⟩

theorem userJoin_sessionPool (sid : Sid) (user : User) (st : BridgeState) :
    (userJoin sid (some user) st).1.sessionPool = setA sid user st.sessionPool := by
  unfold userJoin
  cases hid : user.id with
  | none => simp [hid]
  | some uid =>
    by_cases hne : uid = "" <;> simp [hid, hne]

theorem userJoin_userPool_cases (sid : Sid) (user : User) (st : BridgeState) :
    (userJoin sid (some user) st).1.userPool = st.userPool ∨
    ∃ uid, uid ≠ "" ∧ user.id = some uid ∧
      (userJoin sid (some user) st).1.userPool = poolAddDedup uid sid st.userPool := by
  unfold userJoin
  cases hid : user.id with
  | none => left; simp [hid]
  | some uid =>
    by_cases hne : uid = ""
    · left; simp [hid, hne]
    · right; exact ⟨uid, hne, rfl, by simp [hid, hne]⟩

theorem usage_userPool (sid : Sid) (model : Option ModelId) (t : Nat) (st : BridgeState) :
    (usage sid model t st).1.userPool = st.userPool := by
  unfold usage
  by_cases hs : (lookupA sid st.sessionPool).isSome = true
  · rw [if_pos hs]
    cases model with
    | none => rfl
    | some m =>
      by_cases hm : m = "" <;> simp [hm]
  · rw [if_neg hs]

theorem usage_sessionPool (sid : Sid) (model : Option ModelId) (t : Nat) (st : BridgeState) :
    (usage sid model t st).1.sessionPool = st.sessionPool := by
  unfold usage
  by_cases hs : (lookupA sid st.sessionPool).isSome = true
  · rw [if_pos hs]
    cases model with
    | none => rfl
    | some m =>
      by_cases hm : m = "" <;> simp [hm]
  · rw [if_neg hs]

theorem inv_run (ops : List Op) :
    (∀ p ∈ (run ops).userPool, p.2 ≠ []) ∧
    (∀ q ∈ (run ops).usagePool, q.2 ≠ []) ∧
    (∀ c u, OwnedBy (run ops) c u → AuthAs ops c u) ∧
    (∀ q ∈ (run ops).usagePool, ∀ e ∈ q.2,
      (lookupA e.1 (run ops).sessionPool).isSome = true) := by
  induction ops using List.reverseRecOn with
  | nil =>
    refine ⟨?_, ?_, ?_, ?_⟩ <;> simp [run, initState, OwnedBy, lookupA]
  | append_singleton ops op ih =>
    rw [run_concat]
    exact inv_step ops op (run ops) ih.1 ih.2.1 ih.2.2.1 ih.2.2.2

theorem singleId_append_elim {ops : List Op} {op : Op} (h : SingleId (ops ++ [op])) :
    SingleId ops :=
  fun a ha b hb => h a (List.mem_append_left _ ha) b (List.mem_append_left _ hb)

theorem singleId_last {ops : List Op} {op : Op} (h : SingleId (ops ++ [op])) :
    ∀ a ∈ ops, agreeAuthB (authIdOf a) (authIdOf op) = true :=
  fun a ha => h a (List.mem_append_left _ ha) op (List.mem_append_right _ (by simp))

theorem agreeAuthB_elim {c : Sid} {i i' : Option String}
    (h : agreeAuthB (some (c, i)) (some (c, i')) = true) : i = i' := by
  simp [agreeAuthB] at h
  exact h

theorem auth_forces {ops : List Op} {op : Op} {c : Sid} {u : UserId} {i : Option String}
    (hS : SingleId (ops ++ [op])) (hA : AuthAs ops c u)
    (hop : authIdOf op = some (c, i)) : i = some u := by
  rcases hA with ⟨o, ho, he, _⟩
  have h2 := singleId_last hS o ho
  rw [he, hop] at h2
  exact (agreeAuthB_elim h2).symm

theorem invS_run (ops : List Op) :
    SingleId ops → ∀ c u, OwnedBy (run ops) c u →
      ∃ user, lookupA c (run ops).sessionPool = some user ∧
        user.id = some u ∧ u ≠ "" := by
  induction ops using List.reverseRecOn with
  | nil =>
    intro _ c u hc
    simp [run, initState, OwnedBy, lookupA] at hc
  | append_singleton ops op ihAll =>
    intro hS c u hc
    have ih := ihAll (singleId_append_elim hS)
    have hAuth := (inv_run ops).2.2.1
    rw [run_concat] at hc ⊢
    cases op with
    | connect sid a =>
      cases a with
      | none => exact ih c u hc
      | some user =>
        have hstep : step (run ops) (Op.connect sid (some user))
            = connect sid (some user) (run ops) := rfl
        rw [hstep] at hc ⊢
        have hop : authIdOf (Op.connect sid (some user)) = some (sid, user.id) := rfl
        rw [connect_sessionPool]
        unfold OwnedBy at hc
        rcases connect_userPool_cases sid user (run ops) with hup | ⟨uid, hne, hid, hup⟩
        · rw [hup] at hc
          rcases ih c u hc with ⟨user0, hl0, hid0, hne0⟩
          by_cases hcs : c = sid
          · subst hcs
            have hforce := auth_forces hS (hAuth c u hc) hop
            exact ⟨user, lookupA_setA_self _ _ _, hforce, hne0⟩
          · exact ⟨user0, by rw [lookupA_setA_ne hcs]; exact hl0, hid0, hne0⟩
        · rw [hup] at hc
          rcases owns_poolAdd_elim hc with hc2 | ⟨hu, hcs⟩
          · rcases ih c u hc2 with ⟨user0, hl0, hid0, hne0⟩
            by_cases hcs : c = sid
            · subst hcs
              have hforce := auth_forces hS (hAuth c u hc2) hop
              exact ⟨user, lookupA_setA_self _ _ _, hforce, hne0⟩
            · exact ⟨user0, by rw [lookupA_setA_ne hcs]; exact hl0, hid0, hne0⟩
          · subst hu; subst hcs
            exact ⟨user, lookupA_setA_self _ _ _, hid, hne⟩
    | userJoin sid a =>
      cases a with
      | none => exact ih c u hc
      | some user =>
        have hstep : step (run ops) (Op.userJoin sid (some user))
            = (userJoin sid (some user) (run ops)).1 := rfl
        rw [hstep] at hc ⊢
        have hop : authIdOf (Op.userJoin sid (some user)) = some (sid, user.id) := rfl
        rw [userJoin_sessionPool]
        unfold OwnedBy at hc
        rcases userJoin_userPool_cases sid user (run ops) with hup | ⟨uid, hne, hid, hup⟩
        · rw [hup] at hc
          rcases ih c u hc with ⟨user0, hl0, hid0, hne0⟩
          by_cases hcs : c = sid
          · subst hcs
            have hforce := auth_forces hS (hAuth c u hc) hop
            exact ⟨user, lookupA_setA_self _ _ _, hforce, hne0⟩
          · exact ⟨user0, by rw [lookupA_setA_ne hcs]; exact hl0, hid0, hne0⟩
        · rw [hup] at hc
          rcases owns_poolAddDedup_elim hc with hc2 | ⟨hu, hcs⟩
          · rcases ih c u hc2 with ⟨user0, hl0, hid0, hne0⟩
            by_cases hcs : c = sid
            · subst hcs
              have hforce := auth_forces hS (hAuth c u hc2) hop
              exact ⟨user, lookupA_setA_self _ _ _, hforce, hne0⟩
            · exact ⟨user0, by rw [lookupA_setA_ne hcs]; exact hl0, hid0, hne0⟩
          · subst hu; subst hcs
            exact ⟨user, lookupA_setA_self _ _ _, hid, hne⟩
    | usage sid model t =>
      have hstep : step (run ops) (Op.usage sid model t)
          = (usage sid model t (run ops)).1 := rfl
      rw [hstep] at hc ⊢
      unfold OwnedBy at hc
      rw [usage_userPool] at hc
      rw [usage_sessionPool]
      exact ih c u hc
    | disconnect sid =>
      have hstep : step (run ops) (Op.disconnect sid) = disconnect sid (run ops) := rfl
      rw [hstep] at hc ⊢
      unfold OwnedBy at hc
      rw [disconnect_sessionPool]
      rcases disconnect_userPool_cases sid (run ops) with ⟨hup, hside⟩ |
        ⟨uid, user1, hne1, hl1, hid1, hup⟩
      · rw [hup] at hc
        rcases ih c u hc with ⟨user0, hl0, hid0, hne0⟩
        by_cases hcs : c = sid
        · subst hcs
          exact absurd (hside user0 hl0 u hid0) hne0
        · exact ⟨user0, by rw [lookupA_eraseA_ne hcs]; exact hl0, hid0, hne0⟩
      · rw [hup] at hc
        rcases owns_poolRemove_elim hc with ⟨hc2, himp⟩
        rcases ih c u hc2 with ⟨user0, hl0, hid0, hne0⟩
        by_cases hcs : c = sid
        · subst hcs
          rw [hl1] at hl0
          injection hl0 with heq
          subst heq
          rw [hid1] at hid0
          injection hid0 with heq2
          exact absurd rfl (himp heq2.symm)
        · exact ⟨user0, by rw [lookupA_eraseA_ne hcs]; exact hl0, hid0, hne0⟩

theorem disconnect_noop (ops : List Op) (c : Sid)
    (h : lookupA c (run ops).sessionPool = none) :
    disconnect c (run ops) = run ops := by
  have hInv := inv_run ops
  have hclean : usageCleanup c (run ops).usagePool = (run ops).usagePool := by
    apply usageCleanup_eq_self
    intro q hq
    refine ⟨hInv.2.1 q hq, ?_⟩
    cases hl : lookupA c q.2 with
    | none => rfl
    | some t =>
      have h2 := hInv.2.2.2 q hq (c, t) (lookupA_mem hl)
      simp [h] at h2
  unfold disconnect
  rw [h, eraseA_of_lookupA_none h, hclean]

/-- C1 counterexample: from empty pools, `connect` authenticating `c` as
identity `u1` followed by `user-join` re-authenticating `c` as identity `u2`
leaves `c` in both identities' connection sets, so the at-most-one-identity
part of the invariant fails on the code as stated. -/
theorem c1_counterexample :
    ¬ (∀ ops : List Op,
        (∀ c u u', OwnedBy (run ops) c u → OwnedBy (run ops) c u' → u = u') ∧
        (∀ c u, OwnedBy (run ops) c u → AuthAs ops c u)) := by
  intro h
  have h2 := (h [Op.connect "c" (some ⟨some "u1", none, none⟩),
      Op.userJoin "c" (some ⟨some "u2", none, none⟩)]).1 "c" "u1" "u2"
      (by decide) (by decide)
  exact absurd h2 (by decide)

/-- C1 (amended): in every reachable state of the pools, provided every
successful authentication of a given connection in the trace binds the same
user id (`SingleId`), each connection identifier appears in at most one
identity's connection set of the Identity Index, and appears in no identity's
set unless an authentication for it succeeded (binding that very identity). -/
theorem c1_amended (ops : List Op) (hS : SingleId ops) :
    (∀ c u u', OwnedBy (run ops) c u → OwnedBy (run ops) c u' → u = u') ∧
    (∀ c u, OwnedBy (run ops) c u → AuthAs ops c u) := by
  refine ⟨?_, (inv_run ops).2.2.1⟩
  intro c u u' h1 h2
  rcases invS_run ops hS c u h1 with ⟨user0, hl0, hid0, _⟩
  rcases invS_run ops hS c u' h2 with ⟨user1, hl1, hid1, _⟩
  rw [hl0] at hl1
  injection hl1 with heq
  subst heq
  rw [hid0] at hid1
  injection hid1

/-- C1 witness: a concrete single-identity trace on which the amended theorem
applies, yielding that the owner of `c` was indeed authenticated. -/
theorem c1_witness :
    SingleId [Op.connect "c" (some ⟨some "u", none, none⟩)] ∧
    AuthAs [Op.connect "c" (some ⟨some "u", none, none⟩)] "c" "u" :=
  ⟨by decide,
   (c1_amended [Op.connect "c" (some ⟨some "u", none, none⟩)] (by decide)).2
     "c" "u" (by decide)⟩

/-- C3 counterexample: after `connect` binds `c` to `u1` and `user-join`
re-binds `c` to `u2`, the disconnect cleanup removes `c` only from `u2`'s set;
`c` dangles in `u1`'s set, so the claim fails on the code as stated. -/
theorem c3_counterexample :
    ¬ (∀ (ops : List Op) (c : Sid),
        lookupA c (run (ops ++ [Op.disconnect c])).sessionPool = none ∧
        (∀ u, ¬ OwnedBy (run (ops ++ [Op.disconnect c])) c u) ∧
        (∀ m e, lookupA m (run (ops ++ [Op.disconnect c])).usagePool = some e →
          lookupA c e = none)) := by
  intro h
  exact (h [Op.connect "c" (some ⟨some "u1", none, none⟩),
      Op.userJoin "c" (some ⟨some "u2", none, none⟩)] "c").2.1 "u1" (by decide)

/-- C3 (amended): for every trace in which each connection is only ever
authenticated as a single identity (`SingleId`), after the disconnect cleanup
for connection `c` returns, looking up `c` in the Connection Registry yields
none and `c` is absent from every Identity Index connection set and from every
Usage Tracker resource set. -/
theorem c3_amended (ops : List Op) (c : Sid) (hS : SingleId ops) :
    lookupA c (run (ops ++ [Op.disconnect c])).sessionPool = none ∧
    (∀ u, ¬ OwnedBy (run (ops ++ [Op.disconnect c])) c u) ∧
    (∀ m e, lookupA m (run (ops ++ [Op.disconnect c])).usagePool = some e →
      lookupA c e = none) := by
  rw [run_concat]
  have hstep : step (run ops) (Op.disconnect c) = disconnect c (run ops) := rfl
  rw [hstep]
  refine ⟨?_, ?_, ?_⟩
  · rw [disconnect_sessionPool]
    exact lookupA_eraseA_self _ _
  · intro u hc
    unfold OwnedBy at hc
    rcases disconnect_userPool_cases c (run ops) with ⟨hup, hside⟩ |
      ⟨uid, user1, hne1, hl1, hid1, hup⟩
    · rw [hup] at hc
      rcases invS_run ops hS c u hc with ⟨user0, hl0, hid0, hne0⟩
      exact absurd (hside user0 hl0 u hid0) hne0
    · rw [hup] at hc
      rcases owns_poolRemove_elim hc with ⟨hc2, himp⟩
      rcases invS_run ops hS c u hc2 with ⟨user0, hl0, hid0, _⟩
      rw [hl1] at hl0
      injection hl0 with heq
      subst heq
      rw [hid1] at hid0
      injection hid0 with heq2
      exact absurd rfl (himp heq2.symm)
  · intro m e he
    rw [disconnect_usagePool] at he
    exact lookupA_usageCleanup he

/-- C3 witness: on a concrete single-identity trace, disconnecting `c` leaves
no Connection Registry entry for `c`. -/
theorem c3_witness :
    SingleId [Op.connect "c" (some ⟨some "u", none, none⟩)] ∧
    lookupA "c" (run ([Op.connect "c" (some ⟨some "u", none, none⟩)]
      ++ [Op.disconnect "c"])).sessionPool = none :=
  ⟨by decide,
   (c3_amended [Op.connect "c" (some ⟨some "u", none, none⟩)] "c" (by decide)).1⟩

/-- C4: in every reachable state of the pools, every identity key present in
the Identity Index maps to a non-empty connection list and every model key
present in the Usage Tracker maps to a non-empty per-resource table: neither
pool leaks empty containers. -/
theorem c4 (ops : List Op) :
    (∀ p ∈ (run ops).userPool, p.2 ≠ []) ∧
    (∀ q ∈ (run ops).usagePool, q.2 ≠ []) :=
  ⟨(inv_run ops).1, (inv_run ops).2.1⟩

/-- C4 witness: a concrete reachable state with an Identity Index entry, whose
connection list is non-empty by the theorem. -/
theorem c4_witness :
    ("u", ["c"]) ∈ (run [Op.connect "c" (some ⟨some "u", none, none⟩)]).userPool ∧
    (["c"] : List Sid) ≠ [] :=
  ⟨by decide,
   (c4 [Op.connect "c" (some ⟨some "u", none, none⟩)]).1 ("u", ["c"]) (by decide)⟩

/-- C9: the disconnect cleanup is idempotent: running the `disconnect` handler
for a connection identifier absent from the session pool leaves all three
pools of a reachable state exactly unchanged, and hence a second disconnect
for the same connection is a no-op. -/
theorem c9 (ops : List Op) (c : Sid) :
    (lookupA c (run ops).sessionPool = none → disconnect c (run ops) = run ops) ∧
    run (ops ++ [Op.disconnect c, Op.disconnect c]) = run (ops ++ [Op.disconnect c]) := by
  constructor
  · exact disconnect_noop ops c
  · have h1 : ops ++ [Op.disconnect c, Op.disconnect c]
        = (ops ++ [Op.disconnect c]) ++ [Op.disconnect c] := by simp
    rw [h1, run_concat]
    have h2 : lookupA c (run (ops ++ [Op.disconnect c])).sessionPool = none := by
      rw [run_concat]
      have hstep : step (run ops) (Op.disconnect c) = disconnect c (run ops) := rfl
      rw [hstep, disconnect_sessionPool]
      exact lookupA_eraseA_self _ _
    exact disconnect_noop (ops ++ [Op.disconnect c]) c h2

/-- C9 witness: in a concrete reachable state holding another connection `d`,
disconnecting the absent connection `c` changes nothing. -/
theorem c9_witness :
    lookupA "c" (run [Op.connect "d" (some ⟨some "u", none, none⟩)]).sessionPool = none ∧
    disconnect "c" (run [Op.connect "d" (some ⟨some "u", none, none⟩)])
      = run [Op.connect "d" (some ⟨some "u", none, none⟩)] :=
  ⟨by decide,
   (c9 [Op.connect "d" (some ⟨some "u", none, none⟩)] "c").1 (by decide)⟩

/-- C2 counterexample: the `connect` path appends without a duplicate check,
so performing its add of `(u, c)` twice yields the list `[c, c]` while a single
add yields `[c]`: the two `connectionsFor(u)` values differ. -/
theorem c2_counterexample :
    lookupA "u" (connect "c" (some ⟨some "u", none, none⟩)
        (connect "c" (some ⟨some "u", none, none⟩) initState)).userPool ≠
      lookupA "u" (connect "c" (some ⟨some "u", none, none⟩) initState).userPool := by
  decide

/-- C2 (amended): the Identity Index add is idempotent only through the
`user-join` path: repeating a `user-join` leaves the whole state unchanged, and
a `user-join` following a `connect` with the same authentication outcome is a
state no-op; the `connect` path's add appends unconditionally and is not
idempotent. -/
theorem c2_amended (sid : Sid) (a : Option User) (st : BridgeState) :
    (userJoin sid a (userJoin sid a st).1).1 = (userJoin sid a st).1 ∧
    (userJoin sid a (connect sid a st)).1 = connect sid a st := by
  cases a with
  | none => exact ⟨rfl, rfl⟩
  | some user =>
    cases hid : user.id with
    | none => constructor <;> simp [userJoin, connect, hid, setA_setA]
    | some uid =>
      by_cases hne : uid = ""
      · constructor <;> simp [userJoin, connect, hid, hne, setA_setA]
      · have e1 : (userJoin sid (some user) st).1
            = ⟨setA sid user st.sessionPool, poolAddDedup uid sid st.userPool,
               st.usagePool⟩ := by
          simp [userJoin, hid, hne]
        have e2 : connect sid (some user) st
            = ⟨setA sid user st.sessionPool, poolAdd uid sid st.userPool,
               st.usagePool⟩ := by
          simp [connect, hid, hne]
        constructor
        · rw [e1]
          have e3 : (userJoin sid (some user)
              (⟨setA sid user st.sessionPool, poolAddDedup uid sid st.userPool,
                st.usagePool⟩ : BridgeState)).1
              = ⟨setA sid user (setA sid user st.sessionPool),
                 poolAddDedup uid sid (poolAddDedup uid sid st.userPool),
                 st.usagePool⟩ := by
            simp [userJoin, hid, hne]
          rw [e3, setA_setA,
            poolAddDedup_of_mem (poolAddDedup_self_mem uid sid st.userPool)]
        · rw [e2]
          have e4 : (userJoin sid (some user)
              (⟨setA sid user st.sessionPool, poolAdd uid sid st.userPool,
                st.usagePool⟩ : BridgeState)).1
              = ⟨setA sid user (setA sid user st.sessionPool),
                 poolAddDedup uid sid (poolAdd uid sid st.userPool),
                 st.usagePool⟩ := by
            simp [userJoin, hid, hne]
          rw [e4, setA_setA,
            poolAddDedup_of_mem (poolAdd_self_mem uid sid st.userPool)]

/-- C5: a `usage` event from a connection held in SESSION_POOL and carrying a
truthy model identifier records an upserted last-activity timestamp for that
(model, connection) pair, and the handler returns no acknowledgement. -/
theorem c5 (sid : Sid) (m : ModelId) (t : Nat) (st : BridgeState)
    (hreg : (lookupA sid st.sessionPool).isSome = true) (hm : m ≠ "") :
    usageAt (usage sid (some m) t st).1 m sid = some t ∧
    (usage sid (some m) t st).2 = none := by
  constructor
  · simp [usageAt, usage, hreg, hm, lookupA_setA_self]
  · simp [usage, hreg, hm]

/-- C5 witness: after `c` authenticates, a usage ping for model `m` at time 5
records timestamp 5 for `(m, c)`. -/
theorem c5_witness :
    (lookupA "c" (run [Op.connect "c" (some ⟨some "u", none, none⟩)]).sessionPool).isSome
      = true ∧
    usageAt (usage "c" (some "m") 5
        (run [Op.connect "c" (some ⟨some "u", none, none⟩)])).1 "m" "c" = some 5 :=
  ⟨by decide,
   (c5 "c" "m" 5 (run [Op.connect "c" (some ⟨some "u", none, none⟩)])
     (by decide) (by decide)).1⟩

/-- C6: a `channel-events` broadcast from connection `sid` with a truthy
channel id is re-emitted to exactly the room members other than the sender,
and the re-emitted payload carries `SESSION_POOL.get(sid, {})`: the sender's
currently bound identity, or the empty identity when unauthenticated. -/
theorem c6 (sid : Sid) (ev : ChannelEventIn) (members : List Sid)
    (st : BridgeState) (cid : String) (hc : ev.channel_id = some cid)
    (hne : cid ≠ "") :
    ∃ out recips, channelEvents sid ev members st = some (out, recips) ∧
      (∀ d, d ∈ recips ↔ (d ∈ members ∧ d ≠ sid)) ∧
      out.user = lookupA sid st.sessionPool ∧ out.channel_id = cid := by
  simp only [channelEvents, hc]
  rw [if_neg hne]
  refine ⟨_, _, rfl, ?_, rfl, rfl⟩
  intro d
  simp [List.mem_filter]

/-- C6 witness: a broadcast from `c` to the room with members `c`, `d`, `e` is
delivered to exactly `d` and `e`, with the sender's identity attached. -/
theorem c6_witness :
    ∃ out recips,
      channelEvents "c" ⟨some "ch", none, none⟩ ["c", "d", "e"]
        (run [Op.connect "c" (some ⟨some "u", none, none⟩)]) = some (out, recips) ∧
      (∀ d, d ∈ recips ↔ (d ∈ ["c", "d", "e"] ∧ d ≠ "c")) ∧
      out.user = lookupA "c"
        (run [Op.connect "c" (some ⟨some "u", none, none⟩)]).sessionPool ∧
      out.channel_id = "ch" :=
  c6 "c" ⟨some "ch", none, none⟩ ["c", "d", "e"]
    (run [Op.connect "c" (some ⟨some "u", none, none⟩)]) "ch" rfl (by decide)

/-- C7: the push endpoint: when the requested identity's USER_POOL list is the
duplicate-free non-empty `l`, the handler answers 200 with `sent = l.length`
and emits the (defaulted) event to every connection in `l`, leaving the pools
unchanged; when the identity has no entry it answers the 404 `User not found`
with no emission and no state change; when reading the body raises, it answers
500 carrying the exception message. -/
theorem c7 (st : BridgeState) :
    (∀ req uid l, req.user_id = some uid → uid ≠ "" →
       lookupA uid st.userPool = some l → l ≠ [] → l.Nodup →
       (emitEvent (Except.ok req) st).1 = EmitResponse.ok l.length ∧
       (emitEvent (Except.ok req) st).2.1 =
         l.map (fun s => (req.event.getD "chat-events",
           req.data.getD JsonV.emptyObj, s)) ∧
       (∀ s ∈ l, (req.event.getD "chat-events", req.data.getD JsonV.emptyObj, s)
          ∈ (emitEvent (Except.ok req) st).2.1) ∧
       (emitEvent (Except.ok req) st).2.2 = st) ∧
    (∀ req uid, req.user_id = some uid → uid ≠ "" →
       lookupA uid st.userPool = none →
       emitEvent (Except.ok req) st
         = (EmitResponse.notFound "User not found", [], st)) ∧
    (∀ msg, emitEvent (Except.error msg) st
       = (EmitResponse.internalError msg, [], st)) := by
  refine ⟨?_, ?_, ?_⟩
  · intro req uid l h1 h2 h3 _ _
    have he : emitEvent (Except.ok req) st =
        (EmitResponse.ok l.length,
         l.map (fun s => (req.event.getD "chat-events",
           req.data.getD JsonV.emptyObj, s)), st) := by
      simp [emitEvent, h1, h2, h3]
    rw [he]
    refine ⟨rfl, rfl, ?_, rfl⟩
    intro s hs
    exact List.mem_map_of_mem _ hs
  · intro req uid h1 h2 h3
    simp [emitEvent, h1, h2, h3]
  · intro msg
    rfl

/-- C7 witness: identity `u` bound to connections `c1` and `c2` receives a push
answered with 200 and `sent = 2`. -/
theorem c7_witness :
    lookupA "u" (run [Op.connect "c1" (some ⟨some "u", none, none⟩),
        Op.connect "c2" (some ⟨some "u", none, none⟩)]).userPool
      = some ["c1", "c2"] ∧
    (emitEvent (Except.ok ⟨some "u", some "note", some (JsonV.raw "x")⟩)
        (run [Op.connect "c1" (some ⟨some "u", none, none⟩),
          Op.connect "c2" (some ⟨some "u", none, none⟩)])).1 = EmitResponse.ok 2 :=
  ⟨by decide,
   ((c7 (run [Op.connect "c1" (some ⟨some "u", none, none⟩),
       Op.connect "c2" (some ⟨some "u", none, none⟩)])).1
     ⟨some "u", some "note", some (JsonV.raw "x")⟩ "u" ["c1", "c2"]
     rfl (by decide) (by decide) (by decide) (by decide)).1⟩

/-- C8: in every state, the health endpoint answers 200 with `status` ok,
`connected_users` equal to the number of identity keys of the Identity Index
and `active_sessions` equal to the number of connections held in the
Connection Registry. -/
theorem c8 (st : BridgeState) :
    healthCheck st = (200, ⟨"ok", (keysA st.userPool).length,
      (keysA st.sessionPool).length⟩) := by
  unfold healthCheck keysA
  simp

/-- C10: the push endpoint's defaults: with a found identity, a body without an
`event` field emits the tag `chat-events` and a body without a `data` field
emits the empty object; a body whose `user_id` is missing or empty is answered
with the 404 `User not found` response, not an internal error. -/
theorem c10 (st : BridgeState) :
    (∀ req uid l, req.user_id = some uid → uid ≠ "" →
       lookupA uid st.userPool = some l → req.event = none →
       (emitEvent (Except.ok req) st).2.1 =
         l.map (fun s => ("chat-events", req.data.getD JsonV.emptyObj, s))) ∧
    (∀ req uid l, req.user_id = some uid → uid ≠ "" →
       lookupA uid st.userPool = some l → req.data = none →
       (emitEvent (Except.ok req) st).2.1 =
         l.map (fun s => (req.event.getD "chat-events", JsonV.emptyObj, s))) ∧
    (∀ req, req.user_id = none →
       emitEvent (Except.ok req) st
         = (EmitResponse.notFound "User not found", [], st)) ∧
    (∀ req, req.user_id = some "" →
       emitEvent (Except.ok req) st
         = (EmitResponse.notFound "User not found", [], st)) := by
  refine ⟨?_, ?_, ?_, ?_⟩
  · intro req uid l h1 h2 h3 h4
    simp [emitEvent, h1, h2, h3, h4]
  · intro req uid l h1 h2 h3 h4
    simp [emitEvent, h1, h2, h3, h4]
  · intro req h1
    simp [emitEvent, h1]
  · intro req h1
    simp [emitEvent, h1]

/-- C10 witness: a request for `u` with neither `event` nor `data` emits
`chat-events` with the empty object to `u`'s only connection. -/
theorem c10_witness :
    lookupA "u" (run [Op.connect "c1" (some ⟨some "u", none, none⟩)]).userPool
      = some ["c1"] ∧
    (emitEvent (Except.ok ⟨some "u", none, none⟩)
        (run [Op.connect "c1" (some ⟨some "u", none, none⟩)])).2.1
      = [("chat-events", JsonV.emptyObj, "c1")] :=
  ⟨by decide,
   (c10 (run [Op.connect "c1" (some ⟨some "u", none, none⟩)])).1
     ⟨some "u", none, none⟩ "u" ["c1"] rfl (by decide) (by decide) rfl⟩

end SocketBridge
